import Mathlib

/-!
Verification of the SFTP filesystem-adapter layer (attila_sftp).

The remote server state is modelled as a finite store of directory paths and
file entries; paths are canonical segment lists (the external check_path
helper normalizes separators, so a path is an ordered sequence of segments,
with the empty list denoting the root).  Each adapter operation of the
sftp_connection class is translated into a Lean function over this store.
Mutating operations additionally return the list of mutating protocol calls
they issued and an optional error, so that dry-run/commit behavior and
partial application can be stated precisely.  The server may reject a mkdir
call for reasons invisible to the client (permissions); the store carries an
explicit list of such paths.
-/

namespace AttilaSftp

/-- Errors surfaced by the adapter: usage errors (operating on a closed
session, invalid arguments), protocol-level failures reported by the server,
and the three typed conflict errors raised by make_dir. -/
inductive Err where
  | usageError
  | protocolError
  | directoryNotEmpty (path : List String)
  | fileExists (path : List String)
  | notADirectory (path : List String)
  deriving DecidableEq, Repr

/-- Mutating protocol calls issued against the session: directory creation,
directory removal, file removal, and rename. -/
inductive Op where
  | mkdir (path : List String)
  | rmdir (path : List String)
  | rmfile (path : List String)
  | rn (dir : List String) (oldName newName : String)
  deriving DecidableEq, Repr

/-- The remote store: existing directories, existing files with a size and a
modification time, paths where the server rejects mkdir, and stale names the
server reports in raw listings although no such entry exists. -/
structure FS where
  dirs : List (List String)
  files : List (List String × Nat × Nat)
  mkdirFails : List (List String)
  stale : List (List String × String)
  deriving DecidableEq, Repr

/-- The root is always a directory; any other path is a directory exactly
when the server records it as one. -/
def isDirRaw (fs : FS) (p : List String) : Bool :=
  decide (p = [] ∨ p ∈ fs.dirs)

/-- Whether the server has a file entry at this path. -/
def fileKey (fs : FS) (p : List String) : Bool :=
  decide (p ∈ fs.files.map (fun e => e.1))

/-- The stat data of the file entry at this path, when present. -/
def lookupFile (fs : FS) (p : List String) : Option (Nat × Nat) :=
  (fs.files.find? (fun e => e.1 = p)).map (fun e => e.2)

/-- The name an entry at path d contributes to a listing of directory p:
its last segment, when d is a direct child of p. -/
def childName? (p d : List String) : Option String :=
  if d.dropLast = p ∧ d ≠ [] then d.getLast? else none

/-- The names of the entries that actually exist directly under p. -/
def childNames (fs : FS) (p : List String) : List String :=
  fs.dirs.filterMap (childName? p) ++ (fs.files.map (fun e => e.1)).filterMap (childName? p)

/-- Stale names the server reports under p without a backing entry. -/
def staleNames (fs : FS) (p : List String) : List String :=
  fs.stale.filterMap (fun e => if e.1 = p then some e.2 else none)

/-- The raw listing the server returns for directory p. -/
def rawNames (fs : FS) (p : List String) : List String :=
  childNames fs p ++ staleNames fs p

/-- Raw protocol primitive: change the working directory; fails unless the
target is an existing directory. -/
def session_chdir (fs : FS) (p : List String) : Except Err Unit :=
  if isDirRaw fs p then Except.ok () else Except.error Err.protocolError

/-- Raw protocol primitive: list the working directory p. -/
def session_listdir (fs : FS) (p : List String) : Except Err (List String) :=
  if isDirRaw fs p then Except.ok (rawNames fs p) else Except.error Err.protocolError

/-- Raw protocol primitive: stat a path, yielding its size and mtime. -/
def session_stat (fs : FS) (p : List String) : Except Err (Nat × Nat) :=
  match lookupFile fs p with
  | some st => Except.ok st
  | none => Except.error Err.protocolError

/-- Raw protocol primitive: create a directory.  Fails when the path already
exists, when its parent is not a directory, or when the server rejects the
creation for its own reasons. -/
def session_mkdir (fs : FS) (p : List String) : FS × List Op × Option Err :=
  if isDirRaw fs p || fileKey fs p || !(isDirRaw fs p.dropLast) || decide (p ∈ fs.mkdirFails) then
    (fs, [], some Err.protocolError)
  else ({ fs with dirs := p :: fs.dirs }, [Op.mkdir p], none)

/-- Raw protocol primitive: remove a directory; the server enforces that the
directory exists and is empty. -/
def session_rmdir (fs : FS) (p : List String) : FS × List Op × Option Err :=
  if decide (p ∈ fs.dirs) && decide (childNames fs p = []) then
    ({ fs with dirs := fs.dirs.filter (fun d => decide (d ≠ p)) }, [Op.rmdir p], none)
  else (fs, [], some Err.protocolError)

/-- Raw protocol primitive: remove a file entry. -/
def session_removeFile (fs : FS) (p : List String) : FS × List Op × Option Err :=
  if fileKey fs p then
    ({ fs with files := fs.files.filter (fun e => decide (e.1 ≠ p)) }, [Op.rmfile p], none)
  else (fs, [], some Err.protocolError)

/-- Rewrites a stored path under a rename of src to dst. -/
def rebaseKey (src dst q : List String) : List String :=
  if src.isPrefixOf q then dst ++ q.drop src.length else q

/-- Raw protocol primitive: rename oldName to newName inside directory d;
fails when the source is missing or the destination already exists. -/
def session_rename (fs : FS) (d : List String) (oldName newName : String) : FS × List Op × Option Err :=
  let src := d ++ [oldName]
  let dst := d ++ [newName]
  if (isDirRaw fs src || fileKey fs src) && !(isDirRaw fs dst || fileKey fs dst) then
    ({ fs with dirs := fs.dirs.map (rebaseKey src dst),
               files := fs.files.map (fun e => (rebaseKey src dst e.1, e.2)) },
     [Op.rn d oldName newName], none)
  else (fs, [], some Err.protocolError)

/-- Modelled from the spec: the external check_path helper of the abstract
base class verifies the argument and normalizes separators; on canonical
segment paths it is the identity. -/
def check_path (p : List String) : List String := p

/-- sftp_connection.is_dir: asserts the session is open, then changes the
working directory to the path and attempts a listing; every failure of
either step collapses to false. -/
def is_dir (opened : Bool) (fs : FS) (p : List String) : Except Err Bool :=
  if !opened then Except.error Err.usageError
  else
    match session_chdir fs (check_path p) with
    | Except.error _ => Except.ok false
    | Except.ok _ =>
      match session_listdir fs (check_path p) with
      | Except.error _ => Except.ok false
      | Except.ok _ => Except.ok true

/-- The stat argument as the session receives it: size passes the checked
path string directly, while modified_time wraps the checked path in a
session-bound Path value first. -/
inductive StatArg where
  | plain (p : List String)
  | wrapped (p : List String)
  deriving DecidableEq, Repr

/-- The underlying path of a stat argument. -/
def statArgPath : StatArg → List String
  | StatArg.plain p => p
  | StatArg.wrapped p => p

/-- The server stats the underlying path of the argument it receives. -/
def session_statArg (fs : FS) (a : StatArg) : Except Err (Nat × Nat) :=
  session_stat fs (statArgPath a)

/-- The stat argument issued by sftp_connection.size: the checked path. -/
def sizeStatArg (p : List String) : StatArg := StatArg.plain (check_path p)

/-- The stat argument issued by sftp_connection.modified_time: the checked
path wrapped in a Path value bound to the session. -/
def mtimeStatArg (p : List String) : StatArg := StatArg.wrapped (check_path p)

/-- sftp_connection.size: asserts the session is open, then stats the checked
path and returns the reported size. -/
def size (opened : Bool) (fs : FS) (p : List String) : Except Err Nat :=
  if !opened then Except.error Err.usageError
  else
    match session_statArg fs (sizeStatArg p) with
    | Except.ok st => Except.ok st.1
    | Except.error e => Except.error e

/-- sftp_connection.modified_time: asserts the session is open, then stats
the Path-wrapped checked path and returns the reported mtime. -/
def modified_time (opened : Bool) (fs : FS) (p : List String) : Except Err Nat :=
  if !opened then Except.error Err.usageError
  else
    match session_statArg fs (mtimeStatArg p) with
    | Except.ok st => Except.ok st.2
    | Except.error e => Except.error e

/-- sftp_connection.is_file: asserts the session is open, then probes the
path with a size stat; success yields true, any failure yields false. -/
def is_file (opened : Bool) (fs : FS) (p : List String) : Except Err Bool :=
  if !opened then Except.error Err.usageError
  else
    match size opened fs p with
    | Except.ok _ => Except.ok true
    | Except.error _ => Except.ok false

/-- The boolean directory-or-file existence check used by the listing filter
and by make_dir (exists on the abstract base class, evaluated on an open
session). -/
def existsB (fs : FS) (p : List String) : Bool :=
  isDirRaw fs p || fileKey fs p

/-- Modelled from the spec: glob-to-regex matching from the external strings
helper; a star matches any sequence, a question mark one character,
everything else literally. -/
def globMatch : List Char → List Char → Bool
  | [], [] => true
  | [], _ :: _ => false
  | '*' :: ps, [] => globMatch ps []
  | '*' :: ps, c :: cs => globMatch ps (c :: cs) || globMatch ('*' :: ps) cs
  | '?' :: ps, _ :: cs => globMatch ps cs
  | '?' :: _, [] => false
  | ch :: ps, c :: cs => ch == c && globMatch ps cs
  | _ :: _, [] => false
  termination_by ps cs => (ps.length, cs.length)

/-- sftp_connection.list: asserts the session is open, changes the working
directory to the path, takes the raw listing, keeps only names that pass the
directory-or-file existence check, and finally filters by glob matching when
the pattern is not the wildcard-all. -/
def list (opened : Bool) (fs : FS) (p : List String) (pattern : String) : Except Err (List String) :=
  if !opened then Except.error Err.usageError
  else
    match session_chdir fs (check_path p) with
    | Except.error e => Except.error e
    | Except.ok _ =>
      match session_listdir fs (check_path p) with
      | Except.error e => Except.error e
      | Except.ok raw =>
        let listing := raw.filter (fun n => existsB fs (check_path p ++ [n]))
        if pattern = "*" then Except.ok listing
        else Except.ok (listing.filter (fun n => globMatch pattern.toList n.toList))

/-- sftp_connection.remove: asserts the session is open, dispatches on a
fresh is_dir check, changes the working directory to the parent, and issues
the matching removal primitive on the bare name. -/
def remove (opened : Bool) (fs : FS) (p : List String) : FS × List Op × Option Err :=
  if !opened then (fs, [], some Err.usageError)
  else
    match is_dir opened fs (check_path p) with
    | Except.error e => (fs, [], some e)
    | Except.ok true =>
      if isDirRaw fs (check_path p).dropLast then session_rmdir fs (check_path p)
      else (fs, [], some Err.protocolError)
    | Except.ok false =>
      if isDirRaw fs (check_path p).dropLast then session_removeFile fs (check_path p)
      else (fs, [], some Err.protocolError)

/-- The final name component of a path (empty for the root). -/
def lastSeg (p : List String) : String := p.getLast?.getD ""

/-- sftp_connection.rename: asserts the session is open and the new name is
a nonempty string; when the final name component already equals the new name
nothing at all is done, otherwise the working directory is set to the parent
and the rename primitive is issued on the bare names. -/
def rename (opened : Bool) (fs : FS) (p : List String) (newName : String) : FS × List Op × Option Err :=
  if !opened then (fs, [], some Err.usageError)
  else if newName = "" then (fs, [], some Err.usageError)
  else if lastSeg (check_path p) = newName then (fs, [], none)
  else if isDirRaw fs (check_path p).dropLast then
    session_rename fs (check_path p).dropLast (lastSeg (check_path p)) newName
  else (fs, [], some Err.protocolError)

/-- The local proxy handed back by open_file: the remote path, the lowered
mode, whether the remote content was downloaded into the temp path before
the handle was handed over, and whether a write-back upload action is
attached. -/
structure ProxyFile where
  remote : List String
  mode : String
  downloaded : Bool
  writeback : Bool
  deriving DecidableEq, Repr

/-- ASCII lowercasing of a mode string, as the source applies to the mode
argument before dispatching on it. -/
def lowerStr (m : String) : String := String.mk (m.toList.map Char.toLower)

/-- The download condition as coded in open_file: every mode other than the
two truncating write-only modes copies the remote content down first. -/
def downloadRequired_src (m : String) : Bool := decide (¬ (m = "w" ∨ m = "wb"))

/-- The write-back condition as coded in open_file: every mode other than
the two read-only modes gets the upload write-back action. -/
def writeback_src (m : String) : Bool := decide (¬ (m = "r" ∨ m = "rb"))

/-- Raw protocol primitive: download a remote file into a local temp path;
the parent is entered first and the file entry must exist. -/
def session_download (fs : FS) (p : List String) : Except Err Unit :=
  if isDirRaw fs p.dropLast && fileKey fs p then Except.ok () else Except.error Err.protocolError

/-- sftp_connection.open_file: asserts the session is open, lowercases the
mode, allocates a temp path, downloads the remote content unless the mode is
a truncating write-only mode, and returns a proxy whose write-back action is
attached unless the mode is read-only. -/
def open_file (opened : Bool) (fs : FS) (p : List String) (mode : String) : Except Err ProxyFile :=
  if !opened then Except.error Err.usageError
  else
    let m := lowerStr mode
    if downloadRequired_src m then
      match session_download fs (check_path p) with
      | Except.error e => Except.error e
      | Except.ok _ => Except.ok ⟨check_path p, m, true, writeback_src m⟩
    else Except.ok ⟨check_path p, m, false, writeback_src m⟩

/-- Actions the proxy performs at close time. -/
inductive Action where
  | upload
  | removeTemp
  deriving DecidableEq, Repr

/-- Modelled from the spec: the close behavior of the external ProxyFile
class (attila.fs.proxies): on close the write-back action, when attached, is
invoked, and the temp file is removed regardless. -/
def proxyClose (pf : ProxyFile) : List Action :=
  (if pf.writeback then [Action.upload] else []) ++ [Action.removeTemp]

/-- The standard open modes, lowered. -/
def validModes : List String :=
  ["r", "rb", "r+", "rb+", "r+b", "w", "wb", "w+", "wb+", "w+b", "a", "ab", "a+", "ab+", "a+b"]

/-- A mode that can read back data or appends: it mentions r, a, or update. -/
def readCapableOrAppend (m : String) : Bool :=
  m.toList.any (fun ch => ch == 'r' || ch == 'a' || ch == '+')

/-- A mode that permits writing: it mentions w, a, or update. -/
def permitsWriting (m : String) : Bool :=
  m.toList.any (fun ch => ch == 'w' || ch == 'a' || ch == '+')

/-- A truncating write-only mode: mentions w and has no read capability. -/
def truncatingWriteMode (m : String) : Bool :=
  m.toList.contains 'w' && !(readCapableOrAppend m)

/-- Removes each listed child of p in order via the adapter remove,
stopping at the first failure, exactly as the clearing loop of make_dir. -/
def removeChildren (p : List String) : FS → List String → FS × List Op × Option Err
  | fs, [] => (fs, [], none)
  | fs, c :: cs =>
    match remove true fs (p ++ [c]) with
    | (fs1, ops1, some e) => (fs1, ops1, some e)
    | (fs1, ops1, none) =>
      match removeChildren p fs1 cs with
      | (fs2, ops2, r) => (fs2, ops1 ++ ops2, r)

/-- On an open session the directory probe at the root always succeeds. -/
theorem is_dir_nil (opened : Bool) (fs : FS) : is_dir opened fs [] ≠ Except.ok false := by
  cases opened <;> simp [is_dir, session_chdir, session_listdir, isDirRaw, check_path]

/-- One pass of sftp_connection.make_dir with an explicit check_only flag:
an existing directory is cleared when requested (erroring on a non-empty
directory without overwrite, and only mutating on the real pass); an
existing non-directory errors without overwrite and is replaced on the real
pass; a missing path first ensures the parent is a directory (erroring
without fill, otherwise recursing with clear forced false), then creates the
target on the real pass only. -/
def makeDirGo (opened : Bool) (fs : FS) (p : List String) (overwrite clear fill checkOnly : Bool) : FS × List Op × Option Err :=
  match h1 : is_dir opened fs (check_path p) with
  | Except.error e => (fs, [], some e)
  | Except.ok true =>
    if clear then
      let children := childNames fs (check_path p)
      if children = [] then (fs, [], none)
      else if !overwrite then (fs, [], some (Err.directoryNotEmpty (check_path p)))
      else if checkOnly then (fs, [], none)
      else removeChildren (check_path p) fs children
    else (fs, [], none)
  | Except.ok false =>
    match is_file opened fs (check_path p) with
    | Except.error e => (fs, [], some e)
    | Except.ok true =>
      if !overwrite then (fs, [], some (Err.fileExists (check_path p)))
      else if checkOnly then (fs, [], none)
      else
        match remove opened fs (check_path p) with
        | (fs1, ops1, some e) => (fs1, ops1, some e)
        | (fs1, ops1, none) =>
          match session_mkdir fs1 (check_path p) with
          | (fs2, ops2, r) => (fs2, ops1 ++ ops2, r)
    | Except.ok false =>
      match is_dir opened fs (check_path p).dropLast with
      | Except.error e => (fs, [], some e)
      | Except.ok pd =>
        match (if pd then (fs, ([] : List Op), (none : Option Err))
               else if !fill then (fs, [], some (Err.notADirectory (check_path p).dropLast))
               else makeDirGo opened fs (check_path p).dropLast overwrite false true checkOnly) with
        | (fs1, ops1, some e) => (fs1, ops1, some e)
        | (fs1, ops1, none) =>
          if checkOnly then (fs1, ops1, none)
          else
            match session_mkdir fs1 (check_path p) with
            | (fs2, ops2, r) => (fs2, ops1 ++ ops2, r)
  termination_by p.length
  decreasing_by
    have hne : p ≠ [] := by
      intro hp
      subst hp
      exact is_dir_nil opened fs h1
    have hlen : 0 < p.length := List.length_pos.mpr hne
    simp [check_path, List.length_dropLast]
    omega

/-- sftp_connection.make_dir as invoked publicly: when check_only is unset,
run the whole operation once with check_only true, and only when that dry
run raises no failure run it again for real. -/
def make_dir (opened : Bool) (fs : FS) (p : List String) (overwrite clear fill : Bool) (checkOnly : Option Bool) : FS × List Op × Option Err :=
  match checkOnly with
  | some b => makeDirGo opened fs p overwrite clear fill b
  | none =>
    match makeDirGo opened fs p overwrite clear fill true with
    | (fs1, ops1, some e) => (fs1, ops1, some e)
    | (fs1, ops1, none) =>
      match makeDirGo opened fs1 p overwrite clear fill false with
      | (fs2, ops2, r) => (fs2, ops1 ++ ops2, r)

/-- Well-formedness of the remote store: every recorded directory and file
is rooted below a directory, no path is both a file and a directory, and
entries are not duplicated. -/
def Wf (fs : FS) : Prop :=
  (∀ d ∈ fs.dirs, d ≠ [] ∧ isDirRaw fs d.dropLast = true) ∧
  (∀ e ∈ fs.files, e.1 ≠ [] ∧ isDirRaw fs e.1.dropLast = true ∧ e.1 ∉ fs.dirs) ∧
  fs.dirs.Nodup ∧ (fs.files.map (fun e => e.1)).Nodup

instance (fs : FS) : Decidable (Wf fs) := by
  unfold Wf
  infer_instance

/-! Basic characterizations of the probes. -/

theorem isDirRaw_nil (fs : FS) : isDirRaw fs [] = true := by
  simp [isDirRaw]

theorem is_dir_open_eq (fs : FS) (p : List String) :
    is_dir true fs p = Except.ok (isDirRaw fs p) := by
  cases h : isDirRaw fs p <;>
    simp [is_dir, session_chdir, session_listdir, check_path, h]

theorem fileKey_eq_lookup (fs : FS) (p : List String) :
    fileKey fs p = (lookupFile fs p).isSome := by
  unfold fileKey lookupFile
  cases h : fs.files.find? (fun e => decide (e.1 = p)) with
  | none =>
    rw [List.find?_eq_none] at h
    have hnm : p ∉ fs.files.map (fun e => e.1) := by
      intro hmem
      rcases List.mem_map.mp hmem with ⟨e, he, hep⟩
      have hne := h e he
      simp only [decide_eq_true_eq] at hne
      exact hne hep
    simp [hnm]
  | some e =>
    have h1 : e.1 = p := by simpa using List.find?_some h
    have h2 : e ∈ fs.files := List.mem_of_find?_eq_some h
    have hm : p ∈ fs.files.map (fun e => e.1) := List.mem_map.mpr ⟨e, h2, h1⟩
    simp [hm]

theorem fileKey_true_iff (fs : FS) (p : List String) :
    fileKey fs p = true ↔ ∃ e ∈ fs.files, e.1 = p := by
  simp [fileKey, List.mem_map]

theorem is_file_open_eq (fs : FS) (p : List String) :
    is_file true fs p = Except.ok (fileKey fs p) := by
  rw [fileKey_eq_lookup]
  cases h : lookupFile fs p <;>
    simp [is_file, size, session_statArg, sizeStatArg, statArgPath, session_stat, check_path, h]

theorem session_stat_isOk_iff (fs : FS) (p : List String) :
    (∃ st, session_stat fs p = Except.ok st) ↔ fileKey fs p = true := by
  rw [fileKey_eq_lookup]
  cases h : lookupFile fs p <;> simp [session_stat, h]

/-- C5: on an open session, is_dir returns true exactly when setting the
working directory to the path and listing it both succeed and false on any
failure, and is_file returns true exactly when a size stat of the path
succeeds; neither probe ever propagates a failure — each always returns a
boolean. -/
theorem c5_probes_collapse_to_bool (fs : FS) (p : List String) :
    (∃ b, is_dir true fs p = Except.ok b) ∧
    (is_dir true fs p = Except.ok true ↔
       (session_chdir fs p = Except.ok () ∧ ∃ names, session_listdir fs p = Except.ok names)) ∧
    (∃ b, is_file true fs p = Except.ok b) ∧
    (is_file true fs p = Except.ok true ↔ ∃ st, session_stat fs p = Except.ok st) := by
  refine ⟨⟨isDirRaw fs p, is_dir_open_eq fs p⟩, ?_, ⟨fileKey fs p, is_file_open_eq fs p⟩, ?_⟩
  · rw [is_dir_open_eq]
    cases h : isDirRaw fs p <;> simp [session_chdir, session_listdir, h]
  · rw [is_file_open_eq, session_stat_isOk_iff]
    cases h : fileKey fs p <;> simp [h]

theorem list_open_eq (fs : FS) (p : List String) (pat : String) :
    list true fs p pat =
      if isDirRaw fs (check_path p) then
        (if pat = "*" then
           Except.ok ((rawNames fs (check_path p)).filter (fun n => existsB fs (check_path p ++ [n])))
         else
           Except.ok (((rawNames fs (check_path p)).filter
             (fun n => existsB fs (check_path p ++ [n]))).filter
               (fun n => globMatch pat.toList n.toList)))
      else Except.error Err.protocolError := by
  by_cases h : isDirRaw fs (check_path p) = true <;>
    simp [list, session_chdir, session_listdir, h]

/-- C6: every name returned by list comes from the raw protocol listing,
passes the directory-or-file existence check for the listed directory, and,
when the pattern is not the wildcard-all, matches the glob pattern. -/
theorem c6_list_filters_names (fs : FS) (p : List String) (pat : String) (l : List String) (n : String) :
    list true fs p pat = Except.ok l → n ∈ l →
    n ∈ rawNames fs (check_path p) ∧ existsB fs (check_path p ++ [n]) = true ∧
    (pat ≠ "*" → globMatch pat.toList n.toList = true) := by
  intro hl hn
  rw [list_open_eq] at hl
  by_cases h : isDirRaw fs (check_path p) = true
  · rw [if_pos h] at hl
    by_cases hp : pat = "*"
    · rw [if_pos hp] at hl
      have : n ∈ (rawNames fs (check_path p)).filter (fun n => existsB fs (check_path p ++ [n])) := by
        rw [(Except.ok.injEq _ _).mp hl]; exact hn
      rw [List.mem_filter] at this
      exact ⟨this.1, this.2, fun h2 => absurd hp h2⟩
    · rw [if_neg hp] at hl
      have : n ∈ ((rawNames fs (check_path p)).filter
          (fun n => existsB fs (check_path p ++ [n]))).filter
            (fun n => globMatch pat.toList n.toList) := by
        rw [(Except.ok.injEq _ _).mp hl]; exact hn
      rw [List.mem_filter, List.mem_filter] at this
      exact ⟨this.1.1, this.1.2, fun _ => this.2⟩
  · rw [if_neg h] at hl
    exact absurd hl (by simp)

/-- C6 witness: on a store whose raw listing for the directory reports a
stale name, the returned listing contains only the real entry, and the
theorem applies to it. -/
theorem c6_list_filters_names_witness :
    list true ⟨[["d"]], [(["d","x"],0,0)], [], [(["d"],"ghost")]⟩ ["d"] "*" = Except.ok ["x"] ∧
    ("x" : String) ∈ ["x"] ∧
    ("x" : String) ∈ rawNames ⟨[["d"]], [(["d","x"],0,0)], [], [(["d"],"ghost")]⟩ (check_path ["d"]) ∧
    existsB ⟨[["d"]], [(["d","x"],0,0)], [], [(["d"],"ghost")]⟩ (check_path ["d"] ++ ["x"]) = true := by
  have h1 : list true ⟨[["d"]], [(["d","x"],0,0)], [], [(["d"],"ghost")]⟩ ["d"] "*" = Except.ok ["x"] := by
    rfl
  have h2 : ("x" : String) ∈ ["x"] := by decide
  have h3 := c6_list_filters_names ⟨[["d"]], [(["d","x"],0,0)], [], [(["d"],"ghost")]⟩ ["d"] "*" ["x"] "x" h1 h2
  exact ⟨h1, h2, h3.1, h3.2.1⟩

/-- C7: the proxy returned by open_file records a download exactly when the
lowered mode is outside the truncating write-only pair, carries the upload
write-back exactly when the lowered mode is outside the read-only pair, and
its close invokes the upload exactly once when the write-back is attached;
over the standard modes, the source conditions agree with the spec classes:
no download for a truncating write-only mode, a download for every
read-capable or append mode, and a write-back exactly for the modes that
permit writing. -/
theorem c7_open_file_download_writeback (fs : FS) (p : List String) (m : String) (pf : ProxyFile) :
    (open_file true fs p m = Except.ok pf →
       pf.downloaded = downloadRequired_src (lowerStr m) ∧
       pf.writeback = writeback_src (lowerStr m) ∧
       (proxyClose pf).count Action.upload = (if pf.writeback then 1 else 0)) ∧
    (m ∈ validModes →
       (truncatingWriteMode m = true → downloadRequired_src m = false) ∧
       (readCapableOrAppend m = true → downloadRequired_src m = true) ∧
       writeback_src m = permitsWriting m) := by
  constructor
  · intro h
    have heq : open_file true fs p m =
        (if downloadRequired_src (lowerStr m) then
           match session_download fs (check_path p) with
           | Except.error e => Except.error e
           | Except.ok _ => Except.ok ⟨check_path p, lowerStr m, true, writeback_src (lowerStr m)⟩
         else Except.ok ⟨check_path p, lowerStr m, false, writeback_src (lowerStr m)⟩) := by
      simp [open_file]
    rw [heq] at h
    have hpf : pf.downloaded = downloadRequired_src (lowerStr m) ∧ pf.writeback = writeback_src (lowerStr m) := by
      by_cases hd : downloadRequired_src (lowerStr m) = true
      · rw [if_pos hd] at h
        cases hdl : session_download fs (check_path p) with
        | error e => rw [hdl] at h; exact absurd h (by simp)
        | ok u =>
          rw [hdl] at h
          have h2 := (Except.ok.injEq _ _).mp h
          rw [← h2, hd]
          exact ⟨rfl, rfl⟩
      · rw [if_neg hd] at h
        have h2 := (Except.ok.injEq _ _).mp h
        have hd2 : downloadRequired_src (lowerStr m) = false := by
          cases hdd : downloadRequired_src (lowerStr m)
          · rfl
          · exact absurd hdd hd
        rw [← h2, hd2]
        exact ⟨rfl, rfl⟩
    refine ⟨hpf.1, hpf.2, ?_⟩
    cases hw : pf.writeback <;> simp [proxyClose, hw]
  · intro hm
    fin_cases hm <;> exact ⟨by decide, by decide, by decide⟩

/-- C7 witness: opening an existing file in mode r downloads first and
attaches no write-back; mode r is a standard mode. -/
theorem c7_open_file_download_writeback_witness :
    open_file true ⟨[["d"]], [(["d","x"],0,0)], [], []⟩ ["d","x"] "r" =
      Except.ok ⟨["d","x"], "r", true, false⟩ ∧
    ("r" : String) ∈ validModes ∧
    (⟨["d","x"], "r", true, false⟩ : ProxyFile).downloaded = downloadRequired_src (lowerStr "r") ∧
    writeback_src ("r" : String) = permitsWriting ("r" : String) := by
  have h1 : open_file true ⟨[["d"]], [(["d","x"],0,0)], [], []⟩ ["d","x"] "r" =
      Except.ok ⟨["d","x"], "r", true, false⟩ := by rfl
  have hm : ("r" : String) ∈ validModes := by decide
  have h2 := c7_open_file_download_writeback ⟨[["d"]], [(["d","x"],0,0)], [], []⟩ ["d","x"] "r"
    ⟨["d","x"], "r", true, false⟩
  exact ⟨h1, hm, (h2.1 h1).1, (h2.2 hm).2.2⟩

/-- C8: every adapter operation invoked on an unopened session fails
immediately with a usage error, mutating nothing and issuing no protocol
call. -/
theorem c8_closed_session_usage_error (fs : FS) (p : List String) (pat m n : String)
    (o c f : Bool) (ck : Option Bool) :
    list false fs p pat = Except.error Err.usageError ∧
    size false fs p = Except.error Err.usageError ∧
    modified_time false fs p = Except.error Err.usageError ∧
    remove false fs p = (fs, [], some Err.usageError) ∧
    rename false fs p n = (fs, [], some Err.usageError) ∧
    is_dir false fs p = Except.error Err.usageError ∧
    is_file false fs p = Except.error Err.usageError ∧
    open_file false fs p m = Except.error Err.usageError ∧
    make_dir false fs p o c f ck = (fs, [], some Err.usageError) := by
  refine ⟨rfl, rfl, rfl, rfl, rfl, rfl, rfl, rfl, ?_⟩
  have hgo : ∀ co : Bool, makeDirGo false fs p o c f co = (fs, [], some Err.usageError) := by
    intro co
    rw [makeDirGo]
    rfl
  cases ck with
  | some b => simp [make_dir, hgo b]
  | none => simp [make_dir, hgo]

/-- C9 counterexample: at the concrete path a, the stat argument issued by
modified_time is the Path-wrapped value, not the checked path string that
size issues, so the two operations do not treat the path argument
identically. -/
theorem c9_counterexample :
    mtimeStatArg ["a"] ≠ sizeStatArg ["a"] ∧
    mtimeStatArg ["a"] ≠ StatArg.plain (check_path ["a"]) := by
  constructor <;> simp [mtimeStatArg, sizeStatArg, check_path]

/-- C9 amended: size and modified_time are each a single stat pass-through
returning the server-reported size and modification time respectively, and
both stats resolve the same underlying checked path, but they do not pass
the argument identically: size issues the checked path string while
modified_time issues the checked path wrapped in a session-bound Path
value. -/
theorem c9_amended_stat_passthrough (fs : FS) (p : List String) :
    size true fs p = (session_statArg fs (sizeStatArg p)).map (fun st => st.1) ∧
    modified_time true fs p = (session_statArg fs (mtimeStatArg p)).map (fun st => st.2) ∧
    sizeStatArg p = StatArg.plain (check_path p) ∧
    mtimeStatArg p = StatArg.wrapped (check_path p) ∧
    statArgPath (sizeStatArg p) = statArgPath (mtimeStatArg p) := by
    refine ⟨?_, ?_, rfl, rfl, rfl⟩ <;>
      cases h : session_statArg fs (StatArg.plain (check_path p)) <;>
        simp_all [size, modified_time, session_statArg, sizeStatArg, mtimeStatArg, statArgPath,
          Except.map]

/-- C10: renaming a path to its own final name component is a no-op — no
protocol call is issued and no error is raised; when the names differ, the
working directory is set to the parent and the rename primitive is issued on
the bare old and new names. -/
theorem c10_rename_self_noop (fs : FS) (p : List String) (n : String) :
    (n ≠ "" → n = lastSeg (check_path p) → rename true fs p n = (fs, [], none)) ∧
    (n ≠ "" → n ≠ lastSeg (check_path p) → rename true fs p n =
      (if isDirRaw fs (check_path p).dropLast then
         session_rename fs (check_path p).dropLast (lastSeg (check_path p)) n
       else (fs, [], some Err.protocolError))) := by
  constructor
  · intro hne heq
    unfold rename
    rw [if_neg (by simp), if_neg hne, if_pos heq.symm]
  · intro hne hneq
    unfold rename
    rw [if_neg (by simp), if_neg hne, if_neg (fun h => hneq h.symm)]

/-! Characterizations used by the make_dir cluster. -/

theorem is_dir_eq_ok_iff (opened : Bool) (fs : FS) (p : List String) (b : Bool) :
    is_dir opened fs p = Except.ok b ↔ (opened = true ∧ isDirRaw fs p = b) := by
  cases opened with
  | false => simp [is_dir]
  | true => rw [is_dir_open_eq]; simp

theorem is_file_eq_ok_iff (opened : Bool) (fs : FS) (p : List String) (b : Bool) :
    is_file opened fs p = Except.ok b ↔ (opened = true ∧ fileKey fs p = b) := by
  cases opened with
  | false => simp [is_file]
  | true => rw [is_file_open_eq]; simp

theorem isDirRaw_mem (fs : FS) (p : List String) (h1 : isDirRaw fs p = true) (h2 : p ≠ []) :
    p ∈ fs.dirs := by
  simp only [isDirRaw, decide_eq_true_eq] at h1
  exact h1.resolve_left h2

theorem isDirRaw_of_mem (fs : FS) (p : List String) (h : p ∈ fs.dirs) : isDirRaw fs p = true := by
  simp [isDirRaw, h]

theorem isDirRaw_eq_of_dirs_eq (fs1 fs2 : FS) (h : fs1.dirs = fs2.dirs) (q : List String) :
    isDirRaw fs1 q = isDirRaw fs2 q := by
  simp [isDirRaw, h]

theorem fileKey_eq_of_files_eq (fs1 fs2 : FS) (h : fs1.files = fs2.files) (q : List String) :
    fileKey fs1 q = fileKey fs2 q := by
  simp [fileKey, h]

theorem childNames_congr (fs1 fs2 : FS) (hd : fs1.dirs = fs2.dirs) (hf : fs1.files = fs2.files)
    (q : List String) : childNames fs1 q = childNames fs2 q := by
  simp [childNames, hd, hf]

theorem childName?_eq_some_iff (P d : List String) (c : String) :
    childName? P d = some c ↔ d = P ++ [c] := by
  unfold childName?
  by_cases h : d.dropLast = P ∧ d ≠ []
  · rw [if_pos h]
    constructor
    · intro hg
      have hgl : d.getLast? = some (d.getLast h.2) := List.getLast?_eq_getLast d h.2
      rw [hgl] at hg
      have hcc : d.getLast h.2 = c := by simpa using hg
      have hdd : d.dropLast ++ [d.getLast h.2] = d := List.dropLast_append_getLast h.2
      rw [← h.1, ← hcc]
      exact hdd.symm
    · intro hd
      subst hd
      exact List.getLast?_concat _
  · rw [if_neg h]
    constructor
    · intro hg; exact absurd hg (by simp)
    · intro hd
      subst hd
      exact absurd ⟨List.dropLast_concat, by simp⟩ h

theorem mem_filterMap_childName (P : List String) (n : String) (l : List (List String)) :
    n ∈ l.filterMap (childName? P) ↔ P ++ [n] ∈ l := by
  rw [List.mem_filterMap]
  constructor
  · rintro ⟨a, ha, hc⟩
    rw [childName?_eq_some_iff] at hc
    exact hc ▸ ha
  · intro h
    exact ⟨P ++ [n], h, (childName?_eq_some_iff P _ n).mpr rfl⟩

theorem mem_childNames (fs : FS) (P : List String) (n : String) :
    n ∈ childNames fs P ↔ (P ++ [n] ∈ fs.dirs ∨ fileKey fs (P ++ [n]) = true) := by
  rw [childNames, List.mem_append, mem_filterMap_childName, mem_filterMap_childName, fileKey]
  simp

theorem filterMap_childName_filter (P : List String) (ct : String) (l : List (List String)) :
    (l.filter (fun x => decide (x ≠ P ++ [ct]))).filterMap (childName? P)
      = (l.filterMap (childName? P)).filter (fun n => decide (n ≠ ct)) := by
  induction l with
  | nil => rfl
  | cons x l ih =>
    by_cases hx : x = P ++ [ct]
    · subst hx
      have hc : childName? P (P ++ [ct]) = some ct := (childName?_eq_some_iff P _ ct).mpr rfl
      rw [List.filter_cons_of_neg (by simp), List.filterMap_cons_some hc,
          List.filter_cons_of_neg (by simp), ih]
    · rw [List.filter_cons_of_pos (by simp [hx])]
      cases hcx : childName? P x with
      | none => rw [List.filterMap_cons_none hcx, List.filterMap_cons_none hcx, ih]
      | some c0 =>
        have hx0 : x = P ++ [c0] := (childName?_eq_some_iff P x c0).mp hcx
        have hne : c0 ≠ ct := fun hcc => hx (hcc ▸ hx0)
        rw [List.filterMap_cons_some hcx, List.filterMap_cons_some hcx,
            List.filter_cons_of_pos (by simp [hne]), ih]

theorem filterMap_childName_filter_other (P q : List String) (l : List (List String))
    (hq : ∀ c, q ≠ P ++ [c]) :
    (l.filter (fun x => decide (x ≠ q))).filterMap (childName? P)
      = l.filterMap (childName? P) := by
  induction l with
  | nil => rfl
  | cons x l ih =>
    by_cases hx : x = q
    · subst hx
      have hc : childName? P x = none := by
        cases hcx : childName? P x with
        | none => rfl
        | some c0 => exact absurd ((childName?_eq_some_iff P x c0).mp hcx) (hq c0)
      rw [List.filter_cons_of_neg (by simp), List.filterMap_cons_none hc, ih]
    · rw [List.filter_cons_of_pos (by simp [hx])]
      cases hcx : childName? P x with
      | none => rw [List.filterMap_cons_none hcx, List.filterMap_cons_none hcx, ih]
      | some c0 => rw [List.filterMap_cons_some hcx, List.filterMap_cons_some hcx, ih]

theorem append_singleton_ne_of_ne (P : List String) (a b : String) (h : a ≠ b) :
    P ++ [a] ≠ P ++ [b] := by
  intro hab
  have h1 : (P ++ [a]).getLast? = some a := List.getLast?_concat _
  have h2 : (P ++ [b]).getLast? = some b := List.getLast?_concat _
  rw [hab, h2] at h1
  exact h (by simpa using h1.symm)

theorem ne_append_longer (P q : List String) (hlen : q.length ≤ P.length) (c : String) :
    q ≠ P ++ [c] := by
  intro h
  rw [h] at hlen
  simp at hlen

/-! Behavior of remove on an open session and preservation facts. -/

theorem remove_open_eval (fs : FS) (r : List String) :
    remove true fs r =
      if isDirRaw fs r then
        (if isDirRaw fs r.dropLast then session_rmdir fs r else (fs, [], some Err.protocolError))
      else
        (if isDirRaw fs r.dropLast then session_removeFile fs r
         else (fs, [], some Err.protocolError)) := by
  cases h : isDirRaw fs r <;> cases h2 : isDirRaw fs r.dropLast <;>
    simp [remove, is_dir_open_eq, check_path, h, h2]

theorem remove_none_cases (fs fs1 : FS) (ops : List Op) (r : List String)
    (h : remove true fs r = (fs1, ops, none)) :
    (isDirRaw fs r = true ∧ isDirRaw fs r.dropLast = true ∧ r ∈ fs.dirs ∧ childNames fs r = [] ∧
      fs1.dirs = fs.dirs.filter (fun d => decide (d ≠ r)) ∧ fs1.files = fs.files ∧
      ops = [Op.rmdir r])
    ∨ (isDirRaw fs r = false ∧ isDirRaw fs r.dropLast = true ∧ fileKey fs r = true ∧
      fs1.dirs = fs.dirs ∧ fs1.files = fs.files.filter (fun e => decide (e.1 ≠ r)) ∧
      ops = [Op.rmfile r]) := by
  rw [remove_open_eval] at h
  cases hr : isDirRaw fs r with
  | true =>
    rw [hr, if_pos rfl] at h
    cases hp : isDirRaw fs r.dropLast with
    | true =>
      rw [hp, if_pos rfl] at h
      unfold session_rmdir at h
      by_cases hc : (decide (r ∈ fs.dirs) && decide (childNames fs r = [])) = true
      · rw [if_pos hc] at h
        simp only [Bool.and_eq_true, decide_eq_true_eq] at hc
        have h1 := congrArg (fun x => x.1) h
        have h2 := congrArg (fun x => x.2.1) h
        simp only at h1 h2
        exact Or.inl ⟨rfl, rfl, hc.1, hc.2, by rw [← h1], by rw [← h1], h2.symm⟩
      · rw [if_neg hc] at h
        exact absurd (congrArg (fun x => x.2.2) h) (by simp)
    | false =>
      rw [hp, if_neg (by simp)] at h
      exact absurd (congrArg (fun x => x.2.2) h) (by simp)
  | false =>
    rw [hr, if_neg (by simp)] at h
    cases hp : isDirRaw fs r.dropLast with
    | true =>
      rw [hp, if_pos rfl] at h
      unfold session_removeFile at h
      by_cases hc : fileKey fs r = true
      · rw [if_pos hc] at h
        have h1 := congrArg (fun x => x.1) h
        have h2 := congrArg (fun x => x.2.1) h
        simp only at h1 h2
        exact Or.inr ⟨rfl, rfl, hc, by rw [← h1], by rw [← h1], h2.symm⟩
      · rw [if_neg hc] at h
        exact absurd (congrArg (fun x => x.2.2) h) (by simp)
    | false =>
      rw [hp, if_neg (by simp)] at h
      exact absurd (congrArg (fun x => x.2.2) h) (by simp)

theorem remove_none_isDirRaw (fs fs1 : FS) (ops : List Op) (r : List String)
    (h : remove true fs r = (fs1, ops, none)) (q : List String) (hq : q ≠ r) :
    isDirRaw fs1 q = isDirRaw fs q := by
  rcases remove_none_cases fs fs1 ops r h with ⟨_, _, _, _, hd, _, _⟩ | ⟨_, _, _, hd, _, _⟩
  · simp [isDirRaw, hd, List.mem_filter, hq]
  · rw [isDirRaw, isDirRaw, hd]

theorem remove_none_fileKey (fs fs1 : FS) (ops : List Op) (r : List String)
    (h : remove true fs r = (fs1, ops, none)) (q : List String) (hq : q ≠ r) :
    fileKey fs1 q = fileKey fs q := by
  rcases remove_none_cases fs fs1 ops r h with ⟨_, _, _, _, _, hf, _⟩ | ⟨_, _, _, _, hf, _⟩
  · rw [fileKey, fileKey, hf]
  · have hmap : fs1.files.map (fun e => e.1)
        = (fs.files.map (fun e => e.1)).filter (fun x => decide (x ≠ r)) := by
      rw [hf, List.filter_map]
      rfl
    simp [fileKey, hmap, List.mem_filter, hq]

theorem files_map_filter (fs : FS) (r : List String) :
    (fs.files.filter (fun e => decide (e.1 ≠ r))).map (fun e => e.1)
      = (fs.files.map (fun e => e.1)).filter (fun x => decide (x ≠ r)) := by
  rw [List.filter_map]
  rfl

theorem remove_childNames_parent (fs fs1 : FS) (ops : List Op) (P : List String) (ct : String)
    (hWf : Wf fs) (h : remove true fs (P ++ [ct]) = (fs1, ops, none)) :
    childNames fs1 P = (childNames fs P).filter (fun n => decide (n ≠ ct)) := by
  rcases remove_none_cases fs fs1 ops (P ++ [ct]) h with
    ⟨hdir, _, hmem, _, hd, hf, _⟩ | ⟨hdir, _, hfk, hd, hf, _⟩
  · have hfiles : ((fs.files.map (fun e => e.1)).filterMap (childName? P)).filter
        (fun n => decide (n ≠ ct)) = (fs.files.map (fun e => e.1)).filterMap (childName? P) := by
      rw [List.filter_eq_self]
      intro n hn
      rw [mem_filterMap_childName] at hn
      have hnct : n ≠ ct := by
        intro hcc
        subst hcc
        have hfk2 : fileKey fs (P ++ [n]) = true := by simp [fileKey, hn]
        rcases (fileKey_true_iff fs (P ++ [n])).mp hfk2 with ⟨e, he, hep⟩
        exact (hWf.2.1 e he).2.2 (hep ▸ hmem)
      simp [hnct]
    rw [childNames, childNames, hd, hf, List.filter_append,
      filterMap_childName_filter, hfiles]
  · have hdirs : (fs.dirs.filterMap (childName? P)).filter (fun n => decide (n ≠ ct))
        = fs.dirs.filterMap (childName? P) := by
      rw [List.filter_eq_self]
      intro n hn
      rw [mem_filterMap_childName] at hn
      have hnct : n ≠ ct := by
        intro hcc
        subst hcc
        have : isDirRaw fs (P ++ [n]) = true := isDirRaw_of_mem fs _ hn
        rw [this] at hdir
        exact absurd hdir (by simp)
      simp [hnct]
    rw [childNames, childNames, hd, hf, List.filter_append, files_map_filter,
      filterMap_childName_filter, hdirs]

theorem remove_childNames_other (fs fs1 : FS) (ops : List Op) (r Q : List String)
    (h : remove true fs r = (fs1, ops, none)) (hq : ∀ c, r ≠ Q ++ [c]) :
    childNames fs1 Q = childNames fs Q := by
  rcases remove_none_cases fs fs1 ops r h with ⟨_, _, _, _, hd, hf, _⟩ | ⟨_, _, _, hd, hf, _⟩
  · rw [childNames, childNames, hd, hf, filterMap_childName_filter_other _ _ _ hq]
  · rw [childNames, childNames, hd, hf, files_map_filter,
      filterMap_childName_filter_other _ _ _ hq]

theorem remove_none_Wf (fs fs1 : FS) (ops : List Op) (r : List String)
    (hWf : Wf fs) (h : remove true fs r = (fs1, ops, none)) : Wf fs1 := by
  rcases remove_none_cases fs fs1 ops r h with
    ⟨hdir, _, hmem, hch, hd, hf, _⟩ | ⟨hdir, _, hfk, hd, hf, _⟩
  · refine ⟨?_, ?_, ?_, ?_⟩
    · intro d hdmem
      rw [hd, List.mem_filter] at hdmem
      obtain ⟨hdm, hdne⟩ := hdmem
      have hdne2 : d ≠ r := by simpa using hdne
      obtain ⟨hne, hpar⟩ := hWf.1 d hdm
      refine ⟨hne, ?_⟩
      have hpr : d.dropLast ≠ r := by
        intro hper
        have hform : d = r ++ [d.getLast hne] := by
          rw [← hper]
          exact (List.dropLast_append_getLast hne).symm
        have hchm : d.getLast hne ∈ childNames fs r :=
          (mem_childNames fs r _).mpr (Or.inl (hform ▸ hdm))
        rw [hch] at hchm
        exact absurd hchm (List.not_mem_nil _)
      by_cases hnil : d.dropLast = []
      · rw [hnil]; exact isDirRaw_nil fs1
      · have hpm : d.dropLast ∈ fs.dirs := isDirRaw_mem fs _ hpar hnil
        apply isDirRaw_of_mem
        rw [hd, List.mem_filter]
        exact ⟨hpm, by simpa using hpr⟩
    · intro e hemem
      rw [hf] at hemem
      obtain ⟨hne, hpar, hnd⟩ := hWf.2.1 e hemem
      refine ⟨hne, ?_, ?_⟩
      · have hpr : e.1.dropLast ≠ r := by
          intro hper
          have hform : e.1 = r ++ [e.1.getLast hne] := by
            rw [← hper]
            exact (List.dropLast_append_getLast hne).symm
          have hfk2 : fileKey fs (r ++ [e.1.getLast hne]) = true := by
            rw [← hform]
            exact (fileKey_true_iff fs e.1).mpr ⟨e, hemem, rfl⟩
          have hchm : e.1.getLast hne ∈ childNames fs r :=
            (mem_childNames fs r _).mpr (Or.inr hfk2)
          rw [hch] at hchm
          exact absurd hchm (List.not_mem_nil _)
        by_cases hnil : e.1.dropLast = []
        · rw [hnil]; exact isDirRaw_nil fs1
        · have hpm : e.1.dropLast ∈ fs.dirs := isDirRaw_mem fs _ hpar hnil
          apply isDirRaw_of_mem
          rw [hd, List.mem_filter]
          exact ⟨hpm, by simpa using hpr⟩
      · intro hcontra
        rw [hd, List.mem_filter] at hcontra
        exact hnd hcontra.1
    · rw [hd]; exact List.Nodup.filter _ hWf.2.2.1
    · rw [hf]; exact hWf.2.2.2
  · refine ⟨?_, ?_, ?_, ?_⟩
    · intro d hdmem
      rw [hd] at hdmem
      obtain ⟨hne, hpar⟩ := hWf.1 d hdmem
      exact ⟨hne, by rw [isDirRaw_eq_of_dirs_eq fs1 fs hd]; exact hpar⟩
    · intro e hemem
      rw [hf] at hemem
      have hemem2 : e ∈ fs.files := List.mem_of_mem_filter hemem
      obtain ⟨hne, hpar, hnd⟩ := hWf.2.1 e hemem2
      refine ⟨hne, ?_, ?_⟩
      · rw [isDirRaw_eq_of_dirs_eq fs1 fs hd]; exact hpar
      · rw [hd]; exact hnd
    · rw [hd]; exact hWf.2.2.1
    · rw [hf, files_map_filter]
      exact List.Nodup.filter _ hWf.2.2.2

/-! Under well-formedness, every prefix of a directory is a directory. -/

theorem Wf_isDirRaw_take (fs : FS) (hWf : Wf fs) :
    ∀ (k : Nat) (d : List String), d.length ≤ k → isDirRaw fs d = true →
      ∀ n, isDirRaw fs (d.take n) = true := by
  intro k
  induction k with
  | zero =>
    intro d hd hdir n
    have hde : d = [] := List.length_eq_zero.mp (Nat.le_zero.mp hd)
    subst hde
    simpa using isDirRaw_nil fs
  | succ kk ih =>
    intro d hd hdir n
    by_cases hn : d.length ≤ n
    · rw [List.take_of_length_le hn]; exact hdir
    · push_neg at hn
      have hne : d ≠ [] := by
        intro hh
        subst hh
        simp at hn
      have hmem : d ∈ fs.dirs := isDirRaw_mem fs d hdir hne
      have hpar : isDirRaw fs d.dropLast = true := (hWf.1 d hmem).2
      have hlen : d.dropLast.length ≤ kk := by
        rw [List.length_dropLast]; omega
      have htake : d.take n = d.dropLast.take n := by
        calc d.take n = d.take (n ⊓ (d.length - 1)) := by rw [Nat.min_eq_left (by omega)]
          _ = (d.take (d.length - 1)).take n := (List.take_take n (d.length - 1) d).symm
          _ = d.dropLast.take n := by rw [← List.dropLast_eq_take]
      rw [htake]
      exact ih d.dropLast hlen hpar n

theorem Wf_file_parent (fs : FS) (p : List String) (hWf : Wf fs) (hfk : fileKey fs p = true) :
    p ≠ [] ∧ isDirRaw fs p.dropLast = true ∧ isDirRaw fs p = false := by
  rcases (fileKey_true_iff fs p).mp hfk with ⟨e, he, hep⟩
  obtain ⟨hne, hpar, hnd⟩ := hWf.2.1 e he
  subst hep
  refine ⟨hne, hpar, ?_⟩
  cases hq : isDirRaw fs e.1 with
  | false => rfl
  | true => exact absurd (isDirRaw_mem fs e.1 hq hne) hnd

/-! Small path and store helpers. -/

theorem take_eq_dropLast_take (p : List String) (n : Nat) (hn : n < p.length) :
    p.take n = p.dropLast.take n := by
  calc p.take n = p.take (n ⊓ (p.length - 1)) := by rw [Nat.min_eq_left (by omega)]
    _ = (p.take (p.length - 1)).take n := (List.take_take n (p.length - 1) p).symm
    _ = p.dropLast.take n := by rw [← List.dropLast_eq_take]

theorem ne_of_length_lt (q p : List String) (h : q.length < p.length) : q ≠ p := by
  intro hqp
  rw [hqp] at h
  omega

theorem session_mkdir_none (fs fs3 : FS) (ops : List Op) (p : List String)
    (h : session_mkdir fs p = (fs3, ops, none)) :
    fs3.dirs = p :: fs.dirs ∧ fs3.files = fs.files ∧ ops = [Op.mkdir p] ∧
    isDirRaw fs p = false ∧ fileKey fs p = false ∧ isDirRaw fs p.dropLast = true ∧
    p ∉ fs.mkdirFails := by
  unfold session_mkdir at h
  by_cases hc : (isDirRaw fs p || fileKey fs p || !isDirRaw fs p.dropLast
      || decide (p ∈ fs.mkdirFails)) = true
  · rw [if_pos hc] at h
    exact absurd (congrArg (fun x => x.2.2) h) (by simp)
  · rw [if_neg hc] at h
    simp only [Bool.or_eq_true, Bool.not_eq_true', decide_eq_true_eq, not_or,
      Bool.not_eq_true] at hc
    have h1 := congrArg (fun x => x.1) h
    have h2 := congrArg (fun x => x.2.1) h
    simp only at h1 h2
    exact ⟨by rw [← h1], by rw [← h1], h2.symm, hc.1.1.1, hc.1.1.2,
      by simpa using hc.1.2, hc.2⟩

theorem isDirRaw_cons_grow (fs2 fs3 : FS) (p q : List String) (hd : fs3.dirs = p :: fs2.dirs)
    (h : isDirRaw fs2 q = true) : isDirRaw fs3 q = true := by
  simp only [isDirRaw, decide_eq_true_eq] at h ⊢
  rw [hd]
  rcases h with h | h
  · exact Or.inl h
  · exact Or.inr (List.mem_cons_of_mem p h)

theorem isDirRaw_cons_self (fs2 fs3 : FS) (p : List String) (hd : fs3.dirs = p :: fs2.dirs) :
    isDirRaw fs3 p = true := by
  simp [isDirRaw, hd]

/-! Inversion and invariants of the child-clearing loop. -/

theorem removeChildren_cons_none (P : List String) (fs fs1 : FS) (c : String) (cs : List String)
    (ops : List Op) (h : removeChildren P fs (c :: cs) = (fs1, ops, none)) :
    ∃ fs2 ops2 ops3, remove true fs (P ++ [c]) = (fs2, ops2, none) ∧
      removeChildren P fs2 cs = (fs1, ops3, none) ∧ ops = ops2 ++ ops3 := by
  rw [removeChildren] at h
  rcases hrm : remove true fs (P ++ [c]) with ⟨fs2, ops2, r2⟩
  rw [hrm] at h
  cases r2 with
  | some e => simp at h
  | none =>
    dsimp only at h
    rcases hrc : removeChildren P fs2 cs with ⟨fs3, ops3, r3⟩
    rw [hrc] at h
    dsimp only at h
    simp only [Prod.mk.injEq] at h
    obtain ⟨hf, ho, hr⟩ := h
    exact ⟨fs2, ops2, ops3, rfl, by rw [hrc, hf, hr], ho.symm⟩

theorem removeChildren_preserves (P : List String) :
    ∀ (cs : List String) (fs fs1 : FS) (ops : List Op),
      removeChildren P fs cs = (fs1, ops, none) →
      ∀ q, (∀ c0, q ≠ P ++ [c0]) → isDirRaw fs1 q = isDirRaw fs q := by
  intro cs
  induction cs with
  | nil =>
    intro fs fs1 ops h q _
    rw [removeChildren] at h
    simp only [Prod.mk.injEq] at h
    rw [← h.1]
  | cons c cs ih =>
    intro fs fs1 ops h q hq
    obtain ⟨fs2, ops2, ops3, hrm, hrc, -⟩ := removeChildren_cons_none P fs fs1 c cs ops h
    rw [ih fs2 fs1 ops3 hrc q hq]
    exact remove_none_isDirRaw fs fs2 ops2 (P ++ [c]) hrm q (hq c)

theorem removeChildren_clears (D : List String) :
    ∀ (cs : List String) (fs : FS), Wf fs → isDirRaw fs D = true → cs.Nodup →
      (∀ c ∈ cs, (c ∈ childNames fs D) ∧
        (fileKey fs (D ++ [c]) = true ∨
          (isDirRaw fs (D ++ [c]) = true ∧ childNames fs (D ++ [c]) = []))) →
      ∃ fs1 ops, removeChildren D fs cs = (fs1, ops, none) ∧
        childNames fs1 D = (childNames fs D).filter (fun n => decide (¬ n ∈ cs)) ∧ Wf fs1 := by
  intro cs
  induction cs with
  | nil =>
    intro fs hWf hD _ _
    refine ⟨fs, [], by rw [removeChildren], ?_, hWf⟩
    exact (List.filter_eq_self.mpr (by intro a _; simp)).symm
  | cons c cs ih =>
    intro fs hWf hD hnd hall
    obtain ⟨hcm, hcstat⟩ := hall c (List.mem_cons_self c cs)
    have hne_nil : D ++ [c] ≠ [] := by simp
    have hstep : ∃ fs2 ops2, remove true fs (D ++ [c]) = (fs2, ops2, none) := by
      rcases hcstat with hfk | ⟨hdir, hempty⟩
      · obtain ⟨-, hpar, hnotdir⟩ := Wf_file_parent fs (D ++ [c]) hWf hfk
        refine ⟨{ fs with files := fs.files.filter (fun e => decide (e.1 ≠ D ++ [c])) },
          [Op.rmfile (D ++ [c])], ?_⟩
        rw [remove_open_eval, hnotdir, if_neg (by simp), List.dropLast_concat, hD, if_pos rfl]
        simp [session_removeFile, hfk]
      · have hmem : D ++ [c] ∈ fs.dirs := isDirRaw_mem fs _ hdir hne_nil
        refine ⟨{ fs with dirs := fs.dirs.filter (fun d => decide (d ≠ D ++ [c])) },
          [Op.rmdir (D ++ [c])], ?_⟩
        rw [remove_open_eval, hdir, if_pos rfl, List.dropLast_concat, hD, if_pos rfl]
        simp [session_rmdir, hmem, hempty]
    obtain ⟨fs2, ops2, hrm⟩ := hstep
    have hWf2 : Wf fs2 := remove_none_Wf fs fs2 ops2 (D ++ [c]) hWf hrm
    have hD2 : isDirRaw fs2 D = true := by
      rw [remove_none_isDirRaw fs fs2 ops2 (D ++ [c]) hrm D (ne_append_longer D D (Nat.le_refl _) c)]
      exact hD
    have hchild2 : childNames fs2 D = (childNames fs D).filter (fun n => decide (n ≠ c)) :=
      remove_childNames_parent fs fs2 ops2 D c hWf hrm
    have hall2 : ∀ c2 ∈ cs, (c2 ∈ childNames fs2 D) ∧
        (fileKey fs2 (D ++ [c2]) = true ∨
          (isDirRaw fs2 (D ++ [c2]) = true ∧ childNames fs2 (D ++ [c2]) = [])) := by
      intro c2 hc2
      obtain ⟨hm, hst⟩ := hall c2 (List.mem_cons_of_mem c hc2)
      have hne : c2 ≠ c := fun hcc => (List.nodup_cons.mp hnd).1 (hcc ▸ hc2)
      have hqne : D ++ [c2] ≠ D ++ [c] := append_singleton_ne_of_ne D c2 c hne
      refine ⟨?_, ?_⟩
      · rw [hchild2, List.mem_filter]
        exact ⟨hm, by simpa using hne⟩
      · rcases hst with hfk | ⟨hdir, hempty⟩
        · exact Or.inl (by
            rw [remove_none_fileKey fs fs2 ops2 _ hrm _ hqne]; exact hfk)
        · refine Or.inr ⟨by
            rw [remove_none_isDirRaw fs fs2 ops2 _ hrm _ hqne]; exact hdir, ?_⟩
          rw [remove_childNames_other fs fs2 ops2 (D ++ [c]) (D ++ [c2]) hrm
            (fun c0 => ne_append_longer (D ++ [c2]) (D ++ [c]) (by simp) c0)]
          exact hempty
    obtain ⟨fs3, ops3, hrc, hchild3, hWf3⟩ := ih fs2 hWf2 hD2 (List.nodup_cons.mp hnd).2 hall2
    refine ⟨fs3, ops2 ++ ops3, ?_, ?_, hWf3⟩
    · rw [removeChildren, hrm]
      dsimp only
      rw [hrc]
    · rw [hchild3, hchild2, List.filter_filter]
      apply List.filter_congr
      intro x _
      by_cases h1 : x = c <;> by_cases h2 : x ∈ cs <;> simp [h1, h2]

/-! The make_dir cluster.  First: a check-only pass issues no mutating
protocol call and leaves the store untouched. -/

theorem makeDirGo_check_pure : ∀ (k : Nat) (p : List String), p.length ≤ k →
    ∀ opened fs o c f, ∃ r, makeDirGo opened fs p o c f true = (fs, [], r) := by
  intro k
  induction k with
  | zero =>
    intro p hp opened fs o c f
    have hpe : p = [] := List.length_eq_zero.mp (Nat.le_zero.mp hp)
    subst hpe
    rw [makeDirGo]
    cases h1 : is_dir opened fs (check_path []) with
    | error e => simp [h1]
    | ok b =>
      cases b with
      | true =>
        simp only [h1]
        by_cases hc : c = true
        · by_cases hch : childNames fs (check_path []) = [] <;> by_cases ho : o = true <;>
            simp [hc, hch, ho]
        · simp [hc]
      | false => exact absurd h1 (is_dir_nil opened fs)
  | succ n ih =>
    intro p hp opened fs o c f
    rw [makeDirGo]
    cases h1 : is_dir opened fs (check_path p) with
    | error e => simp [h1]
    | ok b =>
      cases b with
      | true =>
        simp only [h1]
        by_cases hc : c = true
        · by_cases hch : childNames fs (check_path p) = [] <;> by_cases ho : o = true <;>
            simp [hc, hch, ho]
        · simp [hc]
      | false =>
        simp only [h1]
        cases h2 : is_file opened fs (check_path p) with
        | error e => simp [h2]
        | ok b2 =>
          cases b2 with
          | true =>
            simp only [h2]
            by_cases ho : o = true <;> simp [ho]
          | false =>
            simp only [h2]
            cases h3 : is_dir opened fs (check_path p).dropLast with
            | error e => simp [h3]
            | ok pd =>
              simp only [h3]
              cases pd with
              | true => simp
              | false =>
                by_cases hf : f = true
                · obtain ⟨r, hr⟩ := ih (check_path p).dropLast
                    (by simp [check_path, List.length_dropLast]; omega) opened fs o false true
                  cases r <;> simp [hf, hr]
                · simp [hf]

/-- A successful real pass of makeDirGo leaves the target path and every
prefix of it a directory. -/
theorem makeDirGo_real_dirs : ∀ (k : Nat) (p : List String), p.length ≤ k →
    ∀ opened fs o c f fs1 ops, Wf fs →
      makeDirGo opened fs p o c f false = (fs1, ops, none) →
      ∀ n, isDirRaw fs1 (p.take n) = true := by
  intro k
  induction k with
  | zero =>
    intro p hp opened fs o c f fs1 ops hWf h n
    have hpe : p = [] := List.length_eq_zero.mp (Nat.le_zero.mp hp)
    subst hpe
    rw [List.take_nil]
    exact isDirRaw_nil fs1
  | succ kk ih =>
    intro p hp opened fs o c f fs1 ops hWf h n
    rw [makeDirGo] at h
    simp only [check_path] at h
    cases h1 : is_dir opened fs p with
    | error e => rw [h1] at h; simp at h
    | ok b =>
      rw [h1] at h
      obtain ⟨hop, hdb⟩ := (is_dir_eq_ok_iff opened fs p b).mp h1
      subst hop
      cases b with
      | true =>
        cases c with
        | false =>
          simp at h
          obtain ⟨hfs, -⟩ := h
          subst hfs
          exact Wf_isDirRaw_take _ hWf p.length p (Nat.le_refl _) hdb n
        | true =>
          by_cases hch : childNames fs p = []
          · simp [hch] at h
            obtain ⟨hfs, -⟩ := h
            subst hfs
            exact Wf_isDirRaw_take _ hWf p.length p (Nat.le_refl _) hdb n
          · cases o with
            | false => simp [hch] at h
            | true =>
              simp [hch] at h
              have htk : ∀ c0, p.take n ≠ p ++ [c0] := fun c0 =>
                ne_append_longer p (p.take n)
                  (by rw [List.length_take]; exact Nat.min_le_right _ _) c0
              rw [removeChildren_preserves p (childNames fs p) fs fs1 ops h _ htk]
              exact Wf_isDirRaw_take _ hWf p.length p (Nat.le_refl _) hdb n
      | false =>
        cases h2 : is_file true fs p with
        | error e2 => rw [h2] at h; simp at h
        | ok b2 =>
          rw [h2] at h
          obtain ⟨-, hfb⟩ := (is_file_eq_ok_iff true fs p b2).mp h2
          cases b2 with
          | true =>
            cases o with
            | false => simp at h
            | true =>
              rcases hrm : remove true fs p with ⟨fs2, ops2, r2⟩
              cases r2 with
              | some e => simp [hrm] at h
              | none =>
                rcases hmk : session_mkdir fs2 p with ⟨fs3, ops3, r3⟩
                simp [hrm, hmk] at h
                obtain ⟨hfs, -, hr⟩ := h
                subst hr
                subst hfs
                obtain ⟨hd3, -, -, -, -, -, -⟩ := session_mkdir_none fs2 fs3 ops3 p hmk
                by_cases hn : p.length ≤ n
                · rw [List.take_of_length_le hn]
                  exact isDirRaw_cons_self fs2 fs3 p hd3
                · push_neg at hn
                  rw [take_eq_dropLast_take p n hn]
                  apply isDirRaw_cons_grow fs2 fs3 p _ hd3
                  obtain ⟨hne, hpar, -⟩ := Wf_file_parent fs p hWf hfb
                  have hq : isDirRaw fs (p.dropLast.take n) = true :=
                    Wf_isDirRaw_take fs hWf p.dropLast.length p.dropLast (Nat.le_refl _) hpar n
                  have hlen2 : (p.dropLast.take n).length < p.length := by
                    rw [List.length_take, List.length_dropLast]
                    have hppos : 0 < p.length := List.length_pos.mpr hne
                    omega
                  rw [remove_none_isDirRaw fs fs2 ops2 p hrm _ (ne_of_length_lt _ _ hlen2)]
                  exact hq
          | false =>
            cases h3 : is_dir true fs p.dropLast with
            | error e3 => rw [h3] at h; simp at h
            | ok pd =>
              rw [h3] at h
              obtain ⟨-, hpdb⟩ := (is_dir_eq_ok_iff true fs p.dropLast pd).mp h3
              cases pd with
              | true =>
                rcases hmk : session_mkdir fs p with ⟨fs3, ops3, r3⟩
                simp [hmk] at h
                obtain ⟨hfs, -, hr⟩ := h
                subst hr
                subst hfs
                obtain ⟨hd3, -, -, -, -, -, -⟩ := session_mkdir_none fs fs3 ops3 p hmk
                by_cases hn : p.length ≤ n
                · rw [List.take_of_length_le hn]
                  exact isDirRaw_cons_self fs fs3 p hd3
                · push_neg at hn
                  rw [take_eq_dropLast_take p n hn]
                  exact isDirRaw_cons_grow fs fs3 p _ hd3
                    (Wf_isDirRaw_take fs hWf p.dropLast.length p.dropLast (Nat.le_refl _) hpdb n)
              | false =>
                cases f with
                | false => simp at h
                | true =>
                  rcases hrec : makeDirGo true fs p.dropLast o false true false with ⟨fs2, ops2, r2⟩
                  cases r2 with
                  | some e => simp [hrec] at h
                  | none =>
                    rcases hmk : session_mkdir fs2 p with ⟨fs3, ops3, r3⟩
                    simp [hrec, hmk] at h
                    obtain ⟨hfs, -, hr⟩ := h
                    subst hr
                    subst hfs
                    obtain ⟨hd3, -, -, -, -, -, -⟩ := session_mkdir_none fs2 fs3 ops3 p hmk
                    have hrecdirs : ∀ m, isDirRaw fs2 (p.dropLast.take m) = true :=
                      ih p.dropLast (by rw [List.length_dropLast]; omega) true fs o false true
                        fs2 ops2 hWf hrec
                    by_cases hn : p.length ≤ n
                    · rw [List.take_of_length_le hn]
                      exact isDirRaw_cons_self fs2 fs3 p hd3
                    · push_neg at hn
                      rw [take_eq_dropLast_take p n hn]
                      exact isDirRaw_cons_grow fs2 fs3 p _ hd3 (hrecdirs n)

/-- C1: when make_dir is invoked with check_only unset, the whole operation
is first simulated with check_only true; if that dry run raises any failure,
the same failure is returned with the remote store unchanged and with no
mutating protocol call issued by either pass. -/
theorem c1_dry_run_failure_prevents_mutation (opened : Bool) (fs : FS) (p : List String)
    (o c f : Bool) (e : Err) :
    (makeDirGo opened fs p o c f true).2.2 = some e →
    make_dir opened fs p o c f none = (fs, [], some e) := by
  intro h
  obtain ⟨r, hr⟩ := makeDirGo_check_pure p.length p (Nat.le_refl _) opened fs o c f
  rw [hr] at h
  simp only at h
  rw [make_dir, hr, h]

/-- C1 witness: with a file already occupying the path and overwrite unset,
the dry run raises the file-exists error and the public call returns it with
the store untouched and no protocol call issued. -/
theorem c1_dry_run_failure_prevents_mutation_witness :
    (makeDirGo true ⟨[], [(["a"],0,0)], [], []⟩ ["a"] false false true true).2.2 =
      some (Err.fileExists ["a"]) ∧
    make_dir true ⟨[], [(["a"],0,0)], [], []⟩ ["a"] false false true none =
      (⟨[], [(["a"],0,0)], [], []⟩, [], some (Err.fileExists ["a"])) := by
  have h : (makeDirGo true ⟨[], [(["a"],0,0)], [], []⟩ ["a"] false false true true).2.2 =
      some (Err.fileExists ["a"]) := by
    rw [makeDirGo]
    decide
  exact ⟨h, c1_dry_run_failure_prevents_mutation true ⟨[], [(["a"],0,0)], [], []⟩ ["a"]
    false false true (Err.fileExists ["a"]) h⟩

theorem make_dir_none_eq (opened : Bool) (fs : FS) (p : List String) (o c f : Bool) :
    make_dir opened fs p o c f none =
      (match makeDirGo opened fs p o c f true with
       | (fs1, ops1, some e) => (fs1, ops1, some e)
       | (fs1, ops1, none) =>
         match makeDirGo opened fs1 p o c f false with
         | (fs2, ops2, r) => (fs2, ops1 ++ ops2, r)) := rfl

theorem make_dir_none_of_dry_ok (opened : Bool) (fs fs2 : FS) (p : List String) (o c f : Bool)
    (ops2 : List Op) (r : Option Err)
    (h1 : makeDirGo opened fs p o c f true = (fs, [], none))
    (h2 : makeDirGo opened fs p o c f false = (fs2, ops2, r)) :
    make_dir opened fs p o c f none = (fs2, ops2, r) := by
  rw [make_dir_none_eq, h1]
  dsimp only
  rw [h2]
  simp

theorem childNames_nodup (fs : FS) (P : List String) (hWf : Wf fs) :
    (childNames fs P).Nodup := by
  have hinj : ∀ (a a' : List String) (b : String),
      b ∈ childName? P a → b ∈ childName? P a' → a = a' := by
    intro a a2 b hb hb2
    rw [Option.mem_def, childName?_eq_some_iff] at hb hb2
    rw [hb, hb2]
  rw [childNames]
  apply List.Nodup.append
  · exact List.Nodup.filterMap hinj hWf.2.2.1
  · exact List.Nodup.filterMap hinj hWf.2.2.2
  · intro n hn hn2
    rw [mem_filterMap_childName] at hn hn2
    rcases (fileKey_true_iff fs (P ++ [n])).mp (by simp [fileKey, hn2]) with ⟨e, he, hep⟩
    exact (hWf.2.1 e he).2.2 (hep ▸ hn)

/-- C2: for a path that does not exist, make_dir fails with a not-a-directory
error naming the parent when the parent is not a directory and fill is unset;
with fill set it first recurses on the parent, propagating overwrite and
check_only but forcing clear to false, creates the target itself only on the
real pass; and whenever the public call succeeds, the path and every one of
its ancestors up to the root exist as directories afterwards. -/
theorem c2_fill_creates_ancestors (fs : FS) (p : List String) (o c : Bool)
    (hWf : Wf fs) (hex : existsB fs p = false) :
    ((isDirRaw fs p.dropLast = false → ∀ ck : Bool,
        makeDirGo true fs p o c false ck = (fs, [], some (Err.notADirectory p.dropLast))) ∧
     (isDirRaw fs p.dropLast = false → ∀ (ck : Bool) (fs1 : FS) (ops1 : List Op) (e : Err),
        (makeDirGo true fs p.dropLast o false true ck = (fs1, ops1, some e) →
          makeDirGo true fs p o c true ck = (fs1, ops1, some e)) ∧
        (makeDirGo true fs p.dropLast o false true ck = (fs1, ops1, none) →
          makeDirGo true fs p o c true ck =
            (if ck then (fs1, ops1, none)
             else ((session_mkdir fs1 p).1, ops1 ++ (session_mkdir fs1 p).2.1,
                   (session_mkdir fs1 p).2.2)))) ∧
     (∀ (fs1 : FS) (ops : List Op), make_dir true fs p o c true none = (fs1, ops, none) →
        ∀ n, isDirRaw fs1 (p.take n) = true)) := by
  have hdi : isDirRaw fs p = false := by
    rw [existsB, Bool.or_eq_false_iff] at hex
    exact hex.1
  have hfk : fileKey fs p = false := by
    rw [existsB, Bool.or_eq_false_iff] at hex
    exact hex.2
  have hsd : is_dir true fs p = Except.ok false := by rw [is_dir_open_eq, hdi]
  have hsf : is_file true fs p = Except.ok false := by rw [is_file_open_eq, hfk]
  refine ⟨?_, ?_, ?_⟩
  · intro hpd ck
    have hsp : is_dir true fs p.dropLast = Except.ok false := by rw [is_dir_open_eq, hpd]
    rw [makeDirGo]
    simp only [check_path]
    rw [hsd]
    dsimp only
    rw [hsf]
    dsimp only
    rw [hsp]
    simp
  · intro hpd ck fs1 ops1 e
    have hsp : is_dir true fs p.dropLast = Except.ok false := by rw [is_dir_open_eq, hpd]
    constructor
    · intro hrec
      rw [makeDirGo]
      simp only [check_path]
      rw [hsd]
      dsimp only
      rw [hsf]
      dsimp only
      rw [hsp]
      simp [hrec]
    · intro hrec
      rw [makeDirGo]
      simp only [check_path]
      rw [hsd]
      dsimp only
      rw [hsf]
      dsimp only
      rw [hsp]
      simp [hrec]
  · intro fs1 ops hmk n
    rw [make_dir_none_eq] at hmk
    obtain ⟨r, hr⟩ := makeDirGo_check_pure p.length p (Nat.le_refl _) true fs o c true
    rw [hr] at hmk
    cases r with
    | some e => simp at hmk
    | none =>
      dsimp only at hmk
      rcases hreal : makeDirGo true fs p o c true false with ⟨fs2, ops2, r2⟩
      rw [hreal] at hmk
      dsimp only at hmk
      simp only [Prod.mk.injEq] at hmk
      obtain ⟨hfs, -, hr2⟩ := hmk
      subst hr2
      subst hfs
      exact makeDirGo_real_dirs p.length p (Nat.le_refl _) true fs o c true fs2 ops2 hWf hreal n

/-- C2 witness: creating a/b with fill on an empty store succeeds, issues the
two directory creations parent first, and leaves a, a/b and the root as
directories. -/
theorem c2_fill_creates_ancestors_witness :
    Wf (⟨[], [], [], []⟩ : FS) ∧
    existsB ⟨[], [], [], []⟩ ["a","b"] = false ∧
    make_dir true ⟨[], [], [], []⟩ ["a","b"] false false true none =
      (⟨[["a","b"], ["a"]], [], [], []⟩, [Op.mkdir ["a"], Op.mkdir ["a","b"]], none) ∧
    isDirRaw (⟨[["a","b"], ["a"]], [], [], []⟩ : FS) (["a","b"].take 2) = true ∧
    isDirRaw (⟨[["a","b"], ["a"]], [], [], []⟩ : FS) (["a","b"].take 1) = true ∧
    isDirRaw (⟨[["a","b"], ["a"]], [], [], []⟩ : FS) (["a","b"].take 0) = true := by
  have hWf : Wf (⟨[], [], [], []⟩ : FS) := by decide
  have hex : existsB ⟨[], [], [], []⟩ ["a","b"] = false := by decide
  have ha_dry : makeDirGo true ⟨[], [], [], []⟩ ["a"] false false true true =
      (⟨[], [], [], []⟩, [], none) := by
    rw [makeDirGo]; decide
  have ha_real : makeDirGo true ⟨[], [], [], []⟩ ["a"] false false true false =
      (⟨[["a"]], [], [], []⟩, [Op.mkdir ["a"]], none) := by
    rw [makeDirGo]; decide
  have hd : (check_path (["a","b"] : List String)).dropLast = ["a"] := rfl
  have hab_dry : makeDirGo true ⟨[], [], [], []⟩ ["a","b"] false false true true =
      (⟨[], [], [], []⟩, [], none) := by
    rw [makeDirGo, hd, ha_dry]
    decide
  have hab_real : makeDirGo true ⟨[], [], [], []⟩ ["a","b"] false false true false =
      (⟨[["a","b"], ["a"]], [], [], []⟩, [Op.mkdir ["a"], Op.mkdir ["a","b"]], none) := by
    rw [makeDirGo, hd, ha_real]
    decide
  have hmk : make_dir true ⟨[], [], [], []⟩ ["a","b"] false false true none =
      (⟨[["a","b"], ["a"]], [], [], []⟩, [Op.mkdir ["a"], Op.mkdir ["a","b"]], none) :=
    make_dir_none_of_dry_ok true ⟨[], [], [], []⟩ ⟨[["a","b"], ["a"]], [], [], []⟩ ["a","b"]
      false false true [Op.mkdir ["a"], Op.mkdir ["a","b"]] none hab_dry hab_real
  have hc2 := (c2_fill_creates_ancestors ⟨[], [], [], []⟩ ["a","b"] false false hWf hex).2.2
    ⟨[["a","b"], ["a"]], [], [], []⟩ [Op.mkdir ["a"], Op.mkdir ["a","b"]] hmk
  exact ⟨hWf, hex, hmk, hc2 2, hc2 1, hc2 0⟩

/-- C3 counterexample: on a store where directory d has a child s that is
itself a non-empty directory, make_dir(d, overwrite, clear) with check_only
unset fails instead of succeeding, and d still has its child afterwards:
clearing is not recursive, so the claim that the real pass removes every
child and leaves the directory empty is false. -/
theorem c3_counterexample :
    (make_dir true ⟨[["d"], ["d","s"]], [(["d","s","x"],1,2)], [], []⟩
        ["d"] true true true none).2.2 ≠ none ∧
    childNames (make_dir true ⟨[["d"], ["d","s"]], [(["d","s","x"],1,2)], [], []⟩
        ["d"] true true true none).1 ["d"] = ["s"] := by
  have hdry : makeDirGo true ⟨[["d"], ["d","s"]], [(["d","s","x"],1,2)], [], []⟩
      ["d"] true true true true = (⟨[["d"], ["d","s"]], [(["d","s","x"],1,2)], [], []⟩, [], none) := by
    rw [makeDirGo]; decide
  have hreal : makeDirGo true ⟨[["d"], ["d","s"]], [(["d","s","x"],1,2)], [], []⟩
      ["d"] true true true false =
      (⟨[["d"], ["d","s"]], [(["d","s","x"],1,2)], [], []⟩, [], some Err.protocolError) := by
    rw [makeDirGo]; decide
  have h := make_dir_none_of_dry_ok true ⟨[["d"], ["d","s"]], [(["d","s","x"],1,2)], [], []⟩
    ⟨[["d"], ["d","s"]], [(["d","s","x"],1,2)], [], []⟩ ["d"] true true true []
    (some Err.protocolError) hdry hreal
  rw [h]
  exact ⟨by simp, by decide⟩

/-- C3 amended: for an existing non-empty directory D, make_dir with clear
set and overwrite unset fails with the directory-not-empty error and leaves
the store untouched with no protocol call issued (the dry run fails first);
with overwrite set, provided every child of D is a file or an empty
directory, the dry run mutates nothing, the real pass removes every child,
and D is empty afterwards.  When some child is a non-empty directory the
real pass fails instead, since child removal is not recursive. -/
theorem c3_clear_nonempty (fs : FS) (D : List String) (hWf : Wf fs)
    (hD : isDirRaw fs D = true) (hne : childNames fs D ≠ []) :
    (∀ f, make_dir true fs D false true f none = (fs, [], some (Err.directoryNotEmpty D))) ∧
    (∀ f, (∀ c ∈ childNames fs D, fileKey fs (D ++ [c]) = true ∨
        (isDirRaw fs (D ++ [c]) = true ∧ childNames fs (D ++ [c]) = [])) →
      makeDirGo true fs D true true f true = (fs, [], none) ∧
      ∃ fs1 ops, make_dir true fs D true true f none = (fs1, ops, none) ∧
        childNames fs1 D = []) := by
  have hsd : is_dir true fs D = Except.ok true := by rw [is_dir_open_eq, hD]
  constructor
  · intro f
    have hdry : makeDirGo true fs D false true f true =
        (fs, [], some (Err.directoryNotEmpty D)) := by
      rw [makeDirGo]
      simp only [check_path]
      rw [hsd]
      simp [hne]
    rw [make_dir_none_eq, hdry]
  · intro f hall
    have hdry : makeDirGo true fs D true true f true = (fs, [], none) := by
      rw [makeDirGo]
      simp only [check_path]
      rw [hsd]
      simp [hne]
    have hreal0 : makeDirGo true fs D true true f false =
        removeChildren D fs (childNames fs D) := by
      rw [makeDirGo]
      simp only [check_path]
      rw [hsd]
      simp [hne]
    obtain ⟨fs1, ops, hrc, hch, -⟩ := removeChildren_clears D (childNames fs D) fs hWf hD
      (childNames_nodup fs D hWf) (fun c hc => ⟨hc, hall c hc⟩)
    refine ⟨hdry, fs1, ops, ?_, ?_⟩
    · exact make_dir_none_of_dry_ok true fs fs1 D true true f ops none hdry
        (by rw [hreal0, hrc])
    · rw [hch, List.filter_eq_nil_iff]
      intro a ha
      simp [ha]

/-- C3 witness: a directory d whose single child is the file x is cleared by
the overwriting call and left empty, while the non-overwriting call fails
with the directory-not-empty error and changes nothing. -/
theorem c3_clear_nonempty_witness :
    Wf (⟨[["d"]], [(["d","x"],5,6)], [], []⟩ : FS) ∧
    isDirRaw ⟨[["d"]], [(["d","x"],5,6)], [], []⟩ ["d"] = true ∧
    childNames ⟨[["d"]], [(["d","x"],5,6)], [], []⟩ ["d"] ≠ [] ∧
    make_dir true ⟨[["d"]], [(["d","x"],5,6)], [], []⟩ ["d"] false true true none =
      (⟨[["d"]], [(["d","x"],5,6)], [], []⟩, [], some (Err.directoryNotEmpty ["d"])) ∧
    (∃ fs1 ops, make_dir true ⟨[["d"]], [(["d","x"],5,6)], [], []⟩ ["d"] true true true none =
      (fs1, ops, none) ∧ childNames fs1 ["d"] = []) := by
  have hWf : Wf (⟨[["d"]], [(["d","x"],5,6)], [], []⟩ : FS) := by decide
  have hD : isDirRaw ⟨[["d"]], [(["d","x"],5,6)], [], []⟩ ["d"] = true := by decide
  have hne : childNames ⟨[["d"]], [(["d","x"],5,6)], [], []⟩ ["d"] ≠ [] := by decide
  have h := c3_clear_nonempty ⟨[["d"]], [(["d","x"],5,6)], [], []⟩ ["d"] hWf hD hne
  exact ⟨hWf, hD, hne, h.1 true, (h.2 true (by decide)).2⟩

/-- C4: a non-directory occupying the target path makes make_dir fail with
the file-exists error when overwrite is unset; with overwrite set the
check-only pass returns success without mutating anything and without
consulting whether the later directory creation would succeed, while the
real pass removes the file and creates the directory in its place — and on a
server that rejects the mkdir, the dry run still passes and the real pass
fails after having removed the file. -/
theorem c4_conflicting_file (fs : FS) (p : List String) (hWf : Wf fs)
    (hdi : isDirRaw fs p = false) (hfk : fileKey fs p = true) :
    (∀ c f, make_dir true fs p false c f none = (fs, [], some (Err.fileExists p))) ∧
    (∀ c f, makeDirGo true fs p true c f true = (fs, [], none)) ∧
    (∀ c f, p ∉ fs.mkdirFails →
      make_dir true fs p true c f none =
        ({ fs with files := fs.files.filter (fun e => decide (e.1 ≠ p)),
                   dirs := p :: fs.dirs }, [Op.rmfile p, Op.mkdir p], none)) ∧
    (∀ c f, p ∈ fs.mkdirFails →
      make_dir true fs p true c f none =
        ({ fs with files := fs.files.filter (fun e => decide (e.1 ≠ p)) },
         [Op.rmfile p], some Err.protocolError)) := by
  have hsd : is_dir true fs p = Except.ok false := by rw [is_dir_open_eq, hdi]
  have hsf : is_file true fs p = Except.ok true := by rw [is_file_open_eq, hfk]
  obtain ⟨hne, hpar, -⟩ := Wf_file_parent fs p hWf hfk
  have hdryT : ∀ c f, makeDirGo true fs p true c f true = (fs, [], none) := by
    intro c f
    rw [makeDirGo]
    simp only [check_path]
    rw [hsd]
    dsimp only
    rw [hsf]
    simp
  have hrm : remove true fs p =
      ({ fs with files := fs.files.filter (fun e => decide (e.1 ≠ p)) },
       [Op.rmfile p], none) := by
    rw [remove_open_eval, hdi, if_neg (by simp), hpar, if_pos rfl]
    simp [session_removeFile, hfk]
  have hfkF : fileKey { fs with files := fs.files.filter (fun e => decide (e.1 ≠ p)) } p
      = false := by
    simp [fileKey, files_map_filter, List.mem_filter]
  refine ⟨?_, hdryT, ?_, ?_⟩
  · intro c f
    have hdry : makeDirGo true fs p false c f true = (fs, [], some (Err.fileExists p)) := by
      rw [makeDirGo]
      simp only [check_path]
      rw [hsd]
      dsimp only
      rw [hsf]
      simp
    rw [make_dir_none_eq, hdry]
  · intro c f hnm
    have h1 : isDirRaw { fs with files := fs.files.filter (fun e => decide (e.1 ≠ p)) } p
        = false := hdi
    have h3 : isDirRaw { fs with files := fs.files.filter (fun e => decide (e.1 ≠ p)) }
        p.dropLast = true := hpar
    have hmkd : session_mkdir { fs with files := fs.files.filter (fun e => decide (e.1 ≠ p)) } p
        = ({ fs with files := fs.files.filter (fun e => decide (e.1 ≠ p)),
                     dirs := p :: fs.dirs }, [Op.mkdir p], none) := by
      unfold session_mkdir
      rw [h1, hfkF, h3]
      simp [hnm]
    have hreal : makeDirGo true fs p true c f false =
        ({ fs with files := fs.files.filter (fun e => decide (e.1 ≠ p)),
                   dirs := p :: fs.dirs }, [Op.rmfile p, Op.mkdir p], none) := by
      rw [makeDirGo]
      simp only [check_path]
      rw [hsd, hsf, hrm]
      dsimp only
      rw [hmkd]
      simp
    exact make_dir_none_of_dry_ok true fs _ p true c f _ none (hdryT c f) hreal
  · intro c f hnm
    have hmkd : session_mkdir { fs with files := fs.files.filter (fun e => decide (e.1 ≠ p)) } p
        = ({ fs with files := fs.files.filter (fun e => decide (e.1 ≠ p)) },
           [], some Err.protocolError) := by
      unfold session_mkdir
      simp [hnm]
    have hreal : makeDirGo true fs p true c f false =
        ({ fs with files := fs.files.filter (fun e => decide (e.1 ≠ p)) },
         [Op.rmfile p], some Err.protocolError) := by
      rw [makeDirGo]
      simp only [check_path]
      rw [hsd, hsf, hrm]
      dsimp only
      rw [hmkd]
      simp
    exact make_dir_none_of_dry_ok true fs _ p true c f _ _ (hdryT c f) hreal

/-- C4 witness: with the file x occupying the path and the server set to
reject the mkdir there, the dry run passes while the real pass removes the
file and then fails, demonstrating that the check-only pass never verifies
the later directory creation; the no-overwrite call fails with the
file-exists error. -/
theorem c4_conflicting_file_witness :
    Wf (⟨[], [(["x"],7,8)], [["x"]], []⟩ : FS) ∧
    isDirRaw ⟨[], [(["x"],7,8)], [["x"]], []⟩ ["x"] = false ∧
    fileKey ⟨[], [(["x"],7,8)], [["x"]], []⟩ ["x"] = true ∧
    (["x"] : List String) ∈ (⟨[], [(["x"],7,8)], [["x"]], []⟩ : FS).mkdirFails ∧
    makeDirGo true ⟨[], [(["x"],7,8)], [["x"]], []⟩ ["x"] true false true true =
      (⟨[], [(["x"],7,8)], [["x"]], []⟩, [], none) ∧
    make_dir true ⟨[], [(["x"],7,8)], [["x"]], []⟩ ["x"] true false true none =
      (⟨[], [], [["x"]], []⟩, [Op.rmfile ["x"]], some Err.protocolError) ∧
    make_dir true ⟨[], [(["x"],7,8)], [["x"]], []⟩ ["x"] false false true none =
      (⟨[], [(["x"],7,8)], [["x"]], []⟩, [], some (Err.fileExists ["x"])) := by
  have hWf : Wf (⟨[], [(["x"],7,8)], [["x"]], []⟩ : FS) := by decide
  have hdi : isDirRaw ⟨[], [(["x"],7,8)], [["x"]], []⟩ ["x"] = false := by decide
  have hfk : fileKey ⟨[], [(["x"],7,8)], [["x"]], []⟩ ["x"] = true := by decide
  have hmm : (["x"] : List String) ∈ (⟨[], [(["x"],7,8)], [["x"]], []⟩ : FS).mkdirFails := by
    decide
  have h := c4_conflicting_file ⟨[], [(["x"],7,8)], [["x"]], []⟩ ["x"] hWf hdi hfk
  refine ⟨hWf, hdi, hfk, hmm, h.2.1 false true, ?_, h.1 false true⟩
  exact (h.2.2.2 false true hmm).trans (by decide)

/-- C10 witness: renaming the concrete path a/b to b issues nothing and
succeeds. -/
theorem c10_rename_self_noop_witness :
    ("b" : String) ≠ "" ∧ ("b" : String) = lastSeg (check_path ["a","b"]) ∧
    rename true ⟨[],[],[],[]⟩ ["a","b"] "b" = (⟨[],[],[],[]⟩, [], none) := by
  have h1 : ("b" : String) ≠ "" := by decide
  have h2 : ("b" : String) = lastSeg (check_path ["a","b"]) := by decide
  exact ⟨h1, h2, (c10_rename_self_noop ⟨[],[],[],[]⟩ ["a","b"] "b").1 h1 h2⟩

end AttilaSftp
